import Mathlib

/-!
Shallow embedding of the asteroids game core
(`game.c`, `project.c`, `lives.c`, the two `seven_seg.c` revisions).

Game positions: the C code packs `(x, y)` into one `uint8_t` with the macro
`GAME_POSITION(x,y) = ((x) << 4) | ((y) & 0x0F)`; the stored byte therefore
keeps `x mod 16` in the high nibble and `y mod 16` in the low nibble, and
`GET_X`/`GET_Y` recover exactly those two residues.  We represent a stored
position as the pair `(x % 16, y % 16)`, which is in bijection with the
packed byte; every store site goes through `mkPos`, which performs the same
truncation the macro-plus-`uint8_t`-store performs.
-/

/-- A stored game position: `(x mod 16, y mod 16)`, the two nibbles of the
packed `uint8_t` used by `game.c`. -/
abbrev Pos := Nat × Nat

/-- The truncation performed by `GAME_POSITION(x,y) = ((x)<<4)|((y)&0x0F)`
followed by the store into a `uint8_t`: keep `x mod 16` and `y mod 16`. -/
def mkPos (x y : Nat) : Pos := (x % 16, y % 16)

/-- Field width, from `game.h` as used by `game.c` (comments: `x is 0 to 7`). -/
def FIELD_WIDTH : Nat := 8

/-- Field height, from `game.h` as used by `game.c` (comments: `y is 0 to 15`). -/
def FIELD_HEIGHT : Nat := 16

/-- Modelled from the spec: `game.h` is not in the sources; the spec only says
the direction argument is one of two enumerated values, so we pick two
distinct integers.  `move_base` only ever compares the argument against these
two constants, so the particular values are irrelevant. -/
def MOVE_LEFT : Int := 0

/-- Modelled from the spec: second of the two enumerated direction values. -/
def MOVE_RIGHT : Int := 1

/-- Conversion of a C `int` value to a `uint8_t` function argument. -/
def u8 (z : Int) : Nat := (z % 256).toNat

/-- Wrap-around of a C `int8_t` store (avr-gcc two's complement behaviour). -/
def i8 (z : Int) : Int := (z + 128) % 256 - 128

/-- Modulus of `uint32_t` arithmetic. -/
def U32 : Nat := 4294967296

/-- The mutable module state of `game.c` (`basePosition`, `projectiles`,
`asteroids` with their counts as list lengths) together with the `lives`
counter of `lives.c` and the score counter.

The score module (`score.c`/`score.h`) is not in the sources; the `score`
field is modelled from the spec: a monotonically non-decreasing counter,
incremented by `add_to_score`. -/
structure GameState where
  basePosition : Int
  projectiles : List Pos
  asteroids : List Pos
  lives : Nat
  score : Nat
deriving DecidableEq, Repr

/-- An arbitrary pre-`new_game` state (every field is overwritten before use). -/
def initSt : GameState := ⟨0, [], [], 0, 0⟩

/-- The scan both `asteroid_at` and `projectile_at` perform: first index whose
stored position equals the probe, `none` for C's `-1`. -/
def find_at (l : List Pos) (pos : Pos) : Option Nat :=
  match l with
  | [] => none
  | p :: rest => if p = pos then some 0 else (find_at rest pos).map (· + 1)

/-- C `asteroid_at(x, y)`: index of the asteroid at the probed cell, if any.
The probe is packed by `GAME_POSITION` into a `uint8_t` before comparing. -/
def asteroid_at (asteroids : List Pos) (x y : Nat) : Option Nat :=
  find_at asteroids (mkPos x y)

/-- C `projectile_at(x, y)`. -/
def projectile_at (projectiles : List Pos) (x y : Nat) : Option Nat :=
  find_at projectiles (mkPos x y)

/-- C `base_at(x, y)`: the three-cell footprint test.  `x` and `y` arrive as
`uint8_t` values and are compared with the `int8_t` `basePosition` after the
usual promotion to `int`. -/
def base_at (basePosition : Int) (x y : Nat) : Bool :=
  if y > 1 then false
  else if (x : Int) = basePosition then true
  else if y = 0 ∧ ((x : Int) = basePosition - 1 ∨ (x : Int) = basePosition + 1) then true
  else false

/-- C `remove_asteroid`: guard against an invalid index (`none` models C's
`-1`), otherwise move the last element into the vacated slot and shrink.
When the index is the last slot the C code skips the copy; copying the last
element onto itself gives the same list, so both cases read uniformly. -/
def remove_asteroid (l : List Pos) (idx : Option Nat) : List Pos :=
  match idx with
  | none => l
  | some i => if i < l.length then (l.set i (l.getLastD (0, 0))).dropLast else l

/-- C `remove_projectile`: guard, then shift every later element down one slot
and shrink — exactly `eraseIdx`. -/
def remove_projectile (l : List Pos) (idx : Option Nat) : List Pos :=
  match idx with
  | none => l
  | some i => if i < l.length then l.eraseIdx i else l

/-- C `add_asteroid`: draw `x = random() % FIELD_WIDTH` and
`y = FIELD_HEIGHT - 1 - (random() % 2)` (top two rows) until the cell is free,
then append at index `numAsteroids`.  The successive `random()` draws are the
`rolls` list; `none` means the supplied draws ran out before a free cell. -/
def add_asteroid (l : List Pos) : List Nat → Option (List Pos × List Nat)
  | r1 :: r2 :: rest =>
    let x := r1 % FIELD_WIDTH
    let y := FIELD_HEIGHT - 1 - (r2 % 2)
    if asteroid_at l x y = none then some (l ++ [mkPos x y], rest)
    else add_asteroid l rest
  | _ => none

/-- Modelled from the spec: `score.c` is not in the sources; the spec says the
score is a monotonically non-decreasing counter incremented per destroyed
asteroid, so `add_to_score` is plain addition. -/
def add_to_score (score v : Nat) : Nat := score + v

/-- C `handle_collision`: remove the projectile, remove the asteroid, spawn a
replacement asteroid, add one to the score. -/
def handle_collision (st : GameState) (a p : Nat) (rolls : List Nat) :
    Option (GameState × List Nat) :=
  let projs := remove_projectile st.projectiles (some p)
  let asts := remove_asteroid st.asteroids (some a)
  match add_asteroid asts rolls with
  | some (asts2, rolls2) =>
    some ({ st with projectiles := projs, asteroids := asts2,
                    score := add_to_score st.score 1 }, rolls2)
  | none => none

/-- C `add_to_lives` from `lives.c`: `lives += value` on a `uint32_t` counter,
with the `int16_t` argument converted to `uint32_t` first. -/
def add_to_lives (lives : Nat) (v : Int) : Nat :=
  (lives + (v % 4294967296).toNat) % 4294967296

/-- C `subtract_life` from `game.c`: decrement through `add_to_lives (-1)`
only when the counter is nonzero (port and terminal output omitted). -/
def subtract_life (lives : Nat) : Nat :=
  if lives ≠ 0 then add_to_lives lives (-1) else lives

/-- C `init_lives` from `lives.c`: the counter starts at 4 (port output
omitted). -/
def init_lives (st : GameState) : GameState := { st with lives := 4 }

/-- Modelled from the spec: `score.c` is not in the sources; `init_score`
resets the counter for a new game. -/
def init_score (st : GameState) : GameState := { st with score := 0 }

/-- One `do/while` re-roll of `initialise_game`: `x = random() % FIELD_WIDTH`,
`y = 3 + random() % (FIELD_HEIGHT - 3)` until the cell holds no asteroid. -/
def init_roll (l : List Pos) : List Nat → Option (List Pos × List Nat)
  | r1 :: r2 :: rest =>
    let x := r1 % FIELD_WIDTH
    let y := 3 + r2 % (FIELD_HEIGHT - 3)
    if asteroid_at l x y = none then some (l ++ [mkPos x y], rest)
    else init_roll l rest
  | _ => none

/-- The `for` loop of `initialise_game`: place `n` asteroids one by one. -/
def init_asteroids_loop (n : Nat) (acc : List Pos) (rolls : List Nat) :
    Option (List Pos × List Nat) :=
  match n with
  | 0 => some (acc, rolls)
  | n + 1 =>
    match init_roll acc rolls with
    | some (acc2, rolls2) => init_asteroids_loop n acc2 rolls2
    | none => none

/-- C `initialise_game`: base at `x = 3`, no projectiles, `MAX_ASTEROIDS`
asteroids placed by re-rolling.  `MAX_ASTEROIDS` comes from the missing
`game.h`, so it is a parameter.  Lives and score are untouched here (they are
reset separately by `new_game`). -/
def initialise_game (st : GameState) (maxAsteroids : Nat) (rolls : List Nat) :
    Option GameState :=
  (init_asteroids_loop maxAsteroids [] rolls).map fun acc =>
    { st with basePosition := 3, projectiles := [], asteroids := acc.1 }

/-- C `new_game` from `project.c`: `initialise_game`, `init_score`,
`init_lives` (terminal output omitted). -/
def new_game (st : GameState) (maxAsteroids : Nat) (rolls : List Nat) :
    Option GameState :=
  (initialise_game st maxAsteroids rolls).map fun s => init_lives (init_score s)

/-- The three `remove_asteroid` calls of the `move_base` hit branch: each
call re-queries `asteroid_at` on the current (already shrunk) collection,
exactly as the C code does. -/
def remove_footprint (a : List Pos) (bp2 : Int) : List Pos :=
  let a1 := remove_asteroid a (asteroid_at a (u8 bp2) 1)
  let a2 := remove_asteroid a1 (asteroid_at a1 (u8 (bp2 - 1)) 0)
  remove_asteroid a2 (asteroid_at a2 (u8 (bp2 + 1)) 0)

/-- The tail of C `move_base` after a successful position update `bp2`:
check the new three-cell footprint for asteroids; on a hit, subtract a life
and remove every asteroid found on the footprint (re-querying after each
removal, as the C code does), then return 1. -/
def move_base_aux (st : GameState) (bp2 : Int) : GameState × Bool :=
  let a := st.asteroids
  if asteroid_at a (u8 bp2) 1 ≠ none ∨ asteroid_at a (u8 (bp2 - 1)) 0 ≠ none ∨
      asteroid_at a (u8 (bp2 + 1)) 0 ≠ none then
    ({ st with basePosition := bp2, asteroids := remove_footprint a bp2,
               lives := subtract_life st.lives }, true)
  else ({ st with basePosition := bp2 }, true)

/-- C `move_base`: move one cell left/right unless already at the edge
(`basePosition` 0 resp. 7); on a rejected move return 0 with the state
unchanged; after a successful move run the footprint collision check. -/
def move_base (st : GameState) (direction : Int) : GameState × Bool :=
  if direction = MOVE_LEFT ∧ st.basePosition ≠ 0 then
    move_base_aux st (i8 (st.basePosition - 1))
  else if direction = MOVE_RIGHT ∧ st.basePosition ≠ 7 then
    move_base_aux st (i8 (st.basePosition + 1))
  else (st, false)

/-- C `fire_projectile`: succeed only below capacity and with the cell
`(basePosition, 2)` projectile-free; append the new projectile there and, if
an asteroid already occupies that cell, resolve the collision immediately.
`MAX_PROJECTILES` comes from the missing `game.h`, so it is a parameter. -/
def fire_projectile (maxProjectiles : Nat) (st : GameState) (rolls : List Nat) :
    Option (GameState × Bool) :=
  if st.projectiles.length < maxProjectiles ∧
      projectile_at st.projectiles (u8 st.basePosition) 2 = none then
    let newProjectileNumber := st.projectiles.length
    let st1 := { st with
      projectiles := st.projectiles ++ [mkPos (u8 st.basePosition) 2] }
    match asteroid_at st1.asteroids (u8 st.basePosition) 2 with
    | some a =>
      (handle_collision st1 a newProjectileNumber rolls).map fun r => (r.1, true)
    | none => some (st1, true)
  else some (st, false)

/-- The `while` loop of C `advance_projectiles`, with explicit fuel for the
loop iterations (the C loop terminates because every iteration either
advances the index or removes a projectile).  `x`/`y` are `uint8_t` locals;
`y = y + 1` wraps mod 256 as in C. -/
def advP_loop : Nat → Nat → GameState → List Nat → Option (GameState × List Nat)
  | 0, _, _, _ => none
  | fuel + 1, i, st, rolls =>
    if h : i < st.projectiles.length then
      let p := st.projectiles.get ⟨i, h⟩
      let x := p.1
      let y := (p.2 + 1) % 256
      if y = FIELD_HEIGHT then
        advP_loop fuel i
          { st with projectiles := remove_projectile st.projectiles (some i) } rolls
      else
        match asteroid_at st.asteroids x y with
        | some a =>
          match handle_collision st a i rolls with
          | some (st2, rolls2) => advP_loop fuel i st2 rolls2
          | none => none
        | none =>
          advP_loop fuel (i + 1)
            { st with projectiles := st.projectiles.set i (mkPos x y) } rolls
    else some (st, rolls)

/-- C `advance_projectiles`. -/
def advance_projectiles (fuel : Nat) (st : GameState) (rolls : List Nat) :
    Option (GameState × List Nat) :=
  advP_loop fuel 0 st rolls

/-- The destination row computed by one `advance_asteroids` iteration for the
asteroid `p`: `y = y - 1` on a `uint8_t` local (wrapping to 255 at row 0),
then `y = y + 1` if another asteroid blocks the probed cell. -/
def asteroid_dest (asteroids : List Pos) (p : Pos) : Nat :=
  let y1 := (p.2 + 255) % 256
  if asteroid_at asteroids p.1 y1 ≠ none then (y1 + 1) % 256 else y1

/-- The `while` loop of C `advance_asteroids`.  `y` is a `uint8_t` local, so
`y = y - 1` wraps to 255 at row 0, the blocked-check probes the wrapped row,
and the test `y == -1` compares the promoted value (0..255) with `-1` — we
keep that comparison exactly as written; its branch is unreachable. -/
def advA_loop : Nat → Nat → GameState → List Nat → Option (GameState × List Nat)
  | 0, _, _, _ => none
  | fuel + 1, i, st, rolls =>
    if h : i < st.asteroids.length then
      let p := st.asteroids.get ⟨i, h⟩
      let x := p.1
      let y2 := asteroid_dest st.asteroids p
      if (y2 : Int) = -1 then
        match add_asteroid (remove_asteroid st.asteroids (some i)) rolls with
        | some (asts2, rolls2) =>
          advA_loop fuel i { st with asteroids := asts2 } rolls2
        | none => none
      else
        match projectile_at st.projectiles x y2 with
        | some pj =>
          match handle_collision st i pj rolls with
          | some (st2, rolls2) => advA_loop fuel i st2 rolls2
          | none => none
        | none =>
          if base_at st.basePosition x y2 then
            advA_loop fuel i
              { st with lives := subtract_life st.lives,
                        asteroids := remove_asteroid st.asteroids (some i) } rolls
          else
            advA_loop fuel (i + 1)
              { st with asteroids := st.asteroids.set i (mkPos x y2) } rolls
    else some (st, rolls)

/-- C `advance_asteroids`. -/
def advance_asteroids (fuel : Nat) (st : GameState) (rolls : List Nat) :
    Option (GameState × List Nat) :=
  advA_loop fuel 0 st rolls

/-- One engine entry point invocation, as dispatched by the scheduler. -/
inductive Op where
  | move (direction : Int)
  | fire (maxProjectiles : Nat) (rolls : List Nat)
  | advP (fuel : Nat) (rolls : List Nat)
  | advA (fuel : Nat) (rolls : List Nat)
deriving DecidableEq, Repr

/-- Apply one engine call to the state. -/
def applyOp (st : GameState) : Op → Option GameState
  | .move d => some (move_base st d).1
  | .fire maxP rolls => (fire_projectile maxP st rolls).map (·.1)
  | .advP fuel rolls => (advance_projectiles fuel st rolls).map (·.1)
  | .advA fuel rolls => (advance_asteroids fuel st rolls).map (·.1)

/-- Run a sequence of engine calls. -/
def runOps (st : GameState) : List Op → Option GameState
  | [] => some st
  | op :: rest =>
    match applyOp st op with
    | some st2 => runOps st2 rest
    | none => none

/-- A state is reachable when it arises from `new_game` followed by any
sequence of `move_base` / `fire_projectile` / `advance_projectiles` /
`advance_asteroids` calls. -/
def Reachable (st : GameState) : Prop :=
  ∃ maxAsteroids rolls ops,
    Option.bind (new_game initSt maxAsteroids rolls) (fun s => runOps s ops) = some st

/-- The state invariant maintained by the engine: stored positions are nibble
pairs, the two collections hold pairwise-distinct positions, and the lives
counter never exceeds its initial value. -/
def GameInv (st : GameState) : Prop :=
  (∀ p ∈ st.asteroids, p.1 < 16 ∧ p.2 < 16) ∧
  (∀ p ∈ st.projectiles, p.1 < 16 ∧ p.2 < 16) ∧
  st.asteroids.Nodup ∧ st.projectiles.Nodup ∧ st.lives ≤ 4

/-- The asteroid-tick gate of `play_game` (`project.c`):
`current_time >= last_move_asteroid + 1000 - get_score() * 5` in `uint32_t`
arithmetic.  This is the right-hand side of that comparison. -/
def asteroid_move_threshold (last score : Nat) : Nat :=
  ((last % U32 + 1000) % U32 + (U32 - score % U32 * 5 % U32)) % U32

/-- The asteroid-tick gate itself. -/
def asteroid_move_due (now last score : Nat) : Bool :=
  decide (now % U32 ≥ asteroid_move_threshold last score)

/-- Modelled from the spec's words, for comparison with the code: the interval
`max(floor, BASE_INTERVAL_MS − score × STEP_MS)` with base 1000 ms and step
5 ms per point. -/
def asteroid_interval_spec (floorMs score : Nat) : Nat :=
  max floorMs (1000 - score * 5)

/-- Modelled from the spec's words: the gate the spec describes. -/
def asteroid_due_spec (floorMs now last score : Nat) : Bool :=
  decide (now ≥ last + asteroid_interval_spec floorMs score)

/-- A decoded logical command of the `play_game` input dispatch. -/
inductive Command where
  | left | fire | down | right | pause | idle
deriving DecidableEq, Repr

/-- From `project.c`: `button_pushed()` returns `-1` when no push is waiting. -/
def NO_BUTTON_PUSHED : Int := -1

/-- One step of the escape-sequence state machine of `play_game`, applied to a
serial byte: returns the new value of `characters_into_escape_sequence`
together with the resulting `serial_input` and `escape_sequence_char`
(both `-1` when suppressed).  ESC is byte 27, `[` is byte 91. -/
def decode_serial (escState : Nat) (byte : Int) : Nat × Int × Int :=
  if escState = 0 ∧ byte = 27 then (1, -1, -1)
  else if escState = 1 ∧ byte = 91 then (2, -1, -1)
  else if escState = 2 then (0, -1, byte)
  else (0, byte, -1)

/-- The command dispatch chain of `play_game` (byte codes: `D` 68, `L` 76,
`l` 108, `A` 65, space 32, `B` 66, `C` 67, `R` 82, `r` 114, `p` 112, `P` 80). -/
def command_of (button serial escc : Int) : Command :=
  if button = 3 ∨ escc = 68 ∨ serial = 76 ∨ serial = 108 then .left
  else if button = 2 ∨ escc = 65 ∨ serial = 32 then .fire
  else if button = 1 ∨ escc = 66 then .down
  else if button = 0 ∨ escc = 67 ∨ serial = 82 ∨ serial = 114 then .right
  else if serial = 112 ∨ serial = 80 then .pause
  else .idle

/-- Deliver a byte per scheduler iteration with no button ever pressed, and
collect the command decoded at each iteration. -/
def decode_run (escState : Nat) : List Int → List Command
  | [] => []
  | b :: rest =>
    let r := decode_serial escState b
    command_of NO_BUTTON_PUSHED r.2.1 r.2.2 :: decode_run r.1 rest

/-- The `move_base` dispatches a command list causes. -/
def dispatched_moves (cmds : List Command) : List Int :=
  cmds.filterMap fun c =>
    if c = .left then some MOVE_LEFT
    else if c = .right then some MOVE_RIGHT
    else none

/-- State of a seven-segment display module revision: `previous_time`,
`seven_seg_cc`, `display_value`, the segment-data port and the digit-select
port. -/
structure DisplayState where
  previous_time : Nat
  seven_seg_cc : Nat
  display_value : Nat
  segPort : Nat
  ccPort : Nat
deriving DecidableEq, Repr

/-- The digit-to-segment table `seven_seg_data`. -/
def seven_seg_data : List Nat := [63, 6, 91, 79, 102, 109, 125, 7, 127, 111]

/-- `display_data` of the `part_004` revision: gate
`current_time >= previous_time + 3` (`uint32_t`), then record the time, pin
the select to 0 for values below 10 (driving `value % 10`), otherwise toggle
the select between `value % 10` and `value / 10 % 10`; finally write the
select bit into bit 0 of the select port (`PORTC = (PORTC & ~1) | cc`). -/
def display_data_004 (s : DisplayState) (now : Nat) : DisplayState :=
  if now % U32 ≥ (s.previous_time + 3) % U32 then
    let cc := if s.display_value < 10 then 0 else 1 - s.seven_seg_cc
    let seg :=
      if s.display_value < 10 then seven_seg_data.getD (s.display_value % 10) 0
      else if cc = 0 then seven_seg_data.getD (s.display_value % 10) 0
      else seven_seg_data.getD (s.display_value / 10 % 10) 0
    { s with previous_time := now % U32, seven_seg_cc := cc, segPort := seg,
             ccPort := s.ccPort % 2 ^ 8 / 2 * 2 + cc }
  else s

/-- `display_data` of the `part_003` revision: identical digit logic but the
gate is the strict `current_time > previous_time + 3`, and the select bit is
written into bit 3 of its port (`PORTD = (PORTD & ~(1<<3)) | (cc<<3)`);
we model only the select bit itself on `ccPort`. -/
def display_data_003 (s : DisplayState) (now : Nat) : DisplayState :=
  if now % U32 > (s.previous_time + 3) % U32 then
    let cc := if s.display_value < 10 then 0 else 1 - s.seven_seg_cc
    let seg :=
      if s.display_value < 10 then seven_seg_data.getD (s.display_value % 10) 0
      else if cc = 0 then seven_seg_data.getD (s.display_value % 10) 0
      else seven_seg_data.getD (s.display_value / 10 % 10) 0
    { s with previous_time := now % U32, seven_seg_cc := cc, segPort := seg,
             ccPort := cc }
  else s

/-- The concrete state for the row-zero asteroid experiment: base at 3, no
projectiles, a single asteroid at `(4, 0)`. -/
def c1_state : GameState := ⟨3, [], [(4, 0)], 4, 0⟩

/-! ### List helper lemmas -/

theorem dropLast_set {α : Type} (l : List α) (i : Nat) (v : α) :
    (l.set i v).dropLast = l.dropLast.set i v := by
  rw [List.dropLast_eq_take, List.dropLast_eq_take, List.length_set, List.set_take]

theorem set_nodup_of_not_mem {α : Type} : ∀ (l : List α) (i : Nat) (v : α),
    l.Nodup → v ∉ l → (l.set i v).Nodup := by
  intro l
  induction l with
  | nil => intro i v _ _; simp
  | cons a t ih =>
    intro i v hn hv
    rw [List.nodup_cons] at hn
    cases i with
    | zero =>
      rw [List.set_cons_zero, List.nodup_cons]
      exact ⟨fun hmem => hv (List.mem_cons_of_mem a hmem), hn.2⟩
    | succ n =>
      rw [List.set_cons_succ, List.nodup_cons]
      refine ⟨fun hmem => ?_, ih n v hn.2 fun hm => hv (List.mem_cons_of_mem a hm)⟩
      rcases List.mem_or_eq_of_mem_set hmem with h | h
      · exact hn.1 h
      · exact hv (h ▸ List.mem_cons_self a t)

theorem getLastD_mem {α : Type} (d : α) : ∀ (l : List α), l ≠ [] → l.getLastD d ∈ l := by
  intro l h
  cases l with
  | nil => exact absurd rfl h
  | cons b t =>
    rw [List.getLastD_cons]
    exact List.getLastD_mem_cons t b

theorem getLastD_not_mem_dropLast {α : Type} :
    ∀ (l : List α) (d : α), l.Nodup → l.getLastD d ∉ l.dropLast
  | [], _, _ => by simp
  | [a], _, _ => by simp
  | a :: b :: t, d, hn => by
    rw [List.dropLast_cons₂]
    intro hmem
    have hlast : (a :: b :: t).getLastD d = (b :: t).getLastD d := by
      simp only [List.getLastD_cons]
    rw [hlast] at hmem
    rcases List.mem_cons.mp hmem with h | h
    · have h1 : (b :: t).getLastD d ∈ b :: t := getLastD_mem d (b :: t) (by simp)
      rw [h] at h1
      exact (List.nodup_cons.mp hn).1 h1
    · exact getLastD_not_mem_dropLast (b :: t) d (List.nodup_cons.mp hn).2 h

/-! ### Removal and spawn lemmas -/

theorem remove_asteroid_eq {l : List Pos} {i : Nat} (h : i < l.length) :
    remove_asteroid l (some i) = l.dropLast.set i (l.getLastD (0, 0)) := by
  simp [remove_asteroid, h, dropLast_set]

theorem mem_remove_asteroid {x : Pos} {l : List Pos} {idx : Option Nat} :
    x ∈ remove_asteroid l idx → x ∈ l := by
  cases idx with
  | none => exact id
  | some i =>
    by_cases h : i < l.length
    · rw [remove_asteroid_eq h]
      intro hmem
      rcases List.mem_or_eq_of_mem_set hmem with h2 | h2
      · exact (List.dropLast_sublist l).subset h2
      · have : l ≠ [] := by
          intro heq; rw [heq] at h; simp at h
        exact h2 ▸ getLastD_mem (0, 0) l this
    · simp only [remove_asteroid, if_neg h]
      exact id

theorem nodup_remove_asteroid {l : List Pos} {idx : Option Nat} (hn : l.Nodup) :
    (remove_asteroid l idx).Nodup := by
  cases idx with
  | none => exact hn
  | some i =>
    by_cases h : i < l.length
    · rw [remove_asteroid_eq h]
      exact set_nodup_of_not_mem _ i _ (hn.sublist (List.dropLast_sublist l))
        (getLastD_not_mem_dropLast l (0, 0) hn)
    · simpa [remove_asteroid, h] using hn

theorem length_remove_asteroid {l : List Pos} {i : Nat} (h : i < l.length) :
    (remove_asteroid l (some i)).length = l.length - 1 := by
  simp [remove_asteroid, h]

theorem mem_remove_projectile {x : Pos} {l : List Pos} {idx : Option Nat} :
    x ∈ remove_projectile l idx → x ∈ l := by
  cases idx with
  | none => exact id
  | some i =>
    by_cases h : i < l.length
    · simp only [remove_projectile, if_pos h]
      exact fun hm => (List.eraseIdx_sublist l i).subset hm
    · simp only [remove_projectile, if_neg h]
      exact id

theorem nodup_remove_projectile {l : List Pos} {idx : Option Nat} (hn : l.Nodup) :
    (remove_projectile l idx).Nodup := by
  cases idx with
  | none => exact hn
  | some i =>
    by_cases h : i < l.length
    · simp only [remove_projectile, if_pos h]
      exact hn.sublist (List.eraseIdx_sublist l i)
    · simpa [remove_projectile, h] using hn

theorem length_remove_projectile {l : List Pos} {i : Nat} (h : i < l.length) :
    (remove_projectile l (some i)).length = l.length - 1 := by
  simp [remove_projectile, h, List.length_eraseIdx]

theorem find_at_eq_none : ∀ {l : List Pos} {pos : Pos}, find_at l pos = none ↔ pos ∉ l
  | [], pos => by simp [find_at]
  | p :: rest, pos => by
    simp only [find_at]
    by_cases h : p = pos
    · subst h; simp
    · rw [if_neg h]
      have hmap : ((find_at rest pos).map (· + 1) = none) ↔ find_at rest pos = none := by
        cases find_at rest pos <;> simp
      rw [hmap, find_at_eq_none]
      simp only [List.mem_cons]
      constructor
      · intro hnot hor
        rcases hor with h2 | h2
        · exact h h2.symm
        · exact hnot h2
      · intro hnot h2
        exact hnot (Or.inr h2)

theorem find_at_lt : ∀ {l : List Pos} {pos : Pos} {i : Nat},
    find_at l pos = some i → i < l.length
  | [], _, i => by intro h; simp [find_at] at h
  | p :: rest, pos, i => by
    intro h
    by_cases hp : p = pos
    · simp only [find_at, if_pos hp, Option.some.injEq] at h
      simp only [List.length_cons]
      omega
    · simp only [find_at, if_neg hp, Option.map_eq_some'] at h
      obtain ⟨j, hj, rfl⟩ := h
      have := find_at_lt hj
      simp only [List.length_cons]
      omega

theorem nodup_concat {α : Type} {l : List α} {v : α} (hn : l.Nodup) (hv : v ∉ l) :
    (l ++ [v]).Nodup := by
  rw [List.nodup_append]
  refine ⟨hn, List.nodup_singleton v, ?_⟩
  intro a ha hav
  rw [List.mem_singleton] at hav
  exact hv (hav ▸ ha)

theorem add_asteroid_spec : ∀ (l : List Pos) (rolls : List Nat) (out : List Pos × List Nat),
    add_asteroid l rolls = some out →
    ∃ v, out.1 = l ++ [v] ∧ v ∉ l ∧ v.1 < 16 ∧ (v.2 = 14 ∨ v.2 = 15)
  | l, r1 :: r2 :: rest, out => by
    intro h
    simp only [add_asteroid] at h
    split at h
    · rename_i hfree
      cases h
      refine ⟨mkPos (r1 % FIELD_WIDTH) (FIELD_HEIGHT - 1 - r2 % 2), rfl,
        find_at_eq_none.mp hfree, ?_, ?_⟩
      · simp only [mkPos]
        omega
      · simp only [mkPos, FIELD_HEIGHT]
        omega
    · exact add_asteroid_spec l rest out h
  | l, [], out => by intro h; simp [add_asteroid] at h
  | l, [r], out => by intro h; simp [add_asteroid] at h

theorem init_roll_spec : ∀ (l : List Pos) (rolls : List Nat) (out : List Pos × List Nat),
    init_roll l rolls = some out →
    ∃ v, out.1 = l ++ [v] ∧ v ∉ l ∧ v.1 < 16 ∧ v.2 < 16
  | l, r1 :: r2 :: rest, out => by
    intro h
    simp only [init_roll] at h
    split at h
    · rename_i hfree
      cases h
      refine ⟨mkPos (r1 % FIELD_WIDTH) (3 + r2 % (FIELD_HEIGHT - 3)), rfl,
        find_at_eq_none.mp hfree, ?_, ?_⟩
      · simp only [mkPos]; omega
      · simp only [mkPos]; omega
    · exact init_roll_spec l rest out h
  | l, [], out => by intro h; simp [init_roll] at h
  | l, [r], out => by intro h; simp [init_roll] at h

theorem init_loop_inv : ∀ (n : Nat) (acc : List Pos) (rolls : List Nat)
    (out : List Pos × List Nat),
    init_asteroids_loop n acc rolls = some out →
    acc.Nodup → (∀ q ∈ acc, q.1 < 16 ∧ q.2 < 16) →
    out.1.Nodup ∧ ∀ q ∈ out.1, q.1 < 16 ∧ q.2 < 16 := by
  intro n
  induction n with
  | zero =>
    intro acc rolls out h hn hb
    simp only [init_asteroids_loop] at h
    cases h
    exact ⟨hn, hb⟩
  | succ m ih =>
    intro acc rolls out h hn hb
    simp only [init_asteroids_loop] at h
    cases hroll : init_roll acc rolls with
    | none => rw [hroll] at h; cases h
    | some r =>
      rw [hroll] at h
      obtain ⟨v, hv1, hv2, hv3, hv4⟩ := init_roll_spec acc rolls r hroll
      refine ih r.1 r.2 out ?_ (hv1 ▸ nodup_concat hn hv2) ?_
      · cases r; exact h
      · intro q hq
        rw [hv1] at hq
        rcases List.mem_append.mp hq with h2 | h2
        · exact hb q h2
        · rw [List.mem_singleton] at h2
          exact h2 ▸ ⟨hv3, hv4⟩

theorem handle_collision_eq {st : GameState} {a p : Nat} {rolls : List Nat}
    {st2 : GameState} {rolls2 : List Nat}
    (h : handle_collision st a p rolls = some (st2, rolls2)) :
    ∃ v, st2.asteroids = remove_asteroid st.asteroids (some a) ++ [v] ∧
      v ∉ remove_asteroid st.asteroids (some a) ∧ v.1 < 16 ∧ (v.2 = 14 ∨ v.2 = 15) ∧
      st2.projectiles = remove_projectile st.projectiles (some p) ∧
      st2.score = st.score + 1 ∧ st2.lives = st.lives ∧
      st2.basePosition = st.basePosition := by
  simp only [handle_collision] at h
  cases hadd : add_asteroid (remove_asteroid st.asteroids (some a)) rolls with
  | none => rw [hadd] at h; cases h
  | some out =>
    rw [hadd] at h
    obtain ⟨v, hv1, hv2, hv3, hv4⟩ :=
      add_asteroid_spec (remove_asteroid st.asteroids (some a)) rolls out hadd
    cases h
    exact ⟨v, hv1, hv2, hv3, hv4, rfl, rfl, rfl, rfl⟩

theorem subtract_life_le {lives : Nat} (h : lives ≤ 4) : subtract_life lives ≤ 4 := by
  unfold subtract_life add_to_lives
  split
  · have h2 : ((-1 : Int) % 4294967296).toNat = 4294967295 := by decide
    rw [h2]
    omega
  · exact h

theorem subtract_life_zero : subtract_life 0 = 0 := by
  simp [subtract_life]

theorem new_game_inv {st : GameState} {maxA : Nat} {rolls : List Nat} {s : GameState}
    (h : new_game st maxA rolls = some s) :
    GameInv s ∧ s.basePosition = 3 ∧ s.projectiles = [] ∧ s.lives = 4 ∧ s.score = 0 := by
  simp only [new_game, initialise_game, Option.map_map] at h
  cases hloop : init_asteroids_loop maxA [] rolls with
  | none => rw [hloop] at h; cases h
  | some out =>
    rw [hloop] at h
    obtain ⟨hn, hb⟩ := init_loop_inv maxA [] rolls out hloop (by simp) (by simp)
    cases h
    refine ⟨⟨hb, by simp [init_lives, init_score], hn, by simp [init_lives, init_score],
      by simp [init_lives, init_score]⟩, rfl, rfl, rfl, rfl⟩

theorem set_get_self {α : Type} : ∀ (l : List α) (i : Nat) (h : i < l.length),
    l.set i (l.get ⟨i, h⟩) = l
  | a :: t, 0, _ => rfl
  | a :: t, i + 1, h => by
    have h2 : i < t.length := by simpa using h
    exact congrArg (List.cons a) (set_get_self t i h2)

theorem asteroid_dest_blocked {asteroids : List Pos} {p : Pos} (hp : p.2 < 16)
    (hblk : asteroid_at asteroids p.1 ((p.2 + 255) % 256) ≠ none) :
    asteroid_dest asteroids p = p.2 := by
  simp only [asteroid_dest, if_pos hblk]
  omega

theorem asteroid_dest_free {asteroids : List Pos} {p : Pos}
    (hblk : ¬asteroid_at asteroids p.1 ((p.2 + 255) % 256) ≠ none) :
    asteroid_dest asteroids p = (p.2 + 255) % 256 := by
  simp only [asteroid_dest, if_neg hblk]

theorem advA_loop_inv : ∀ (fuel i : Nat) (st : GameState) (rolls : List Nat)
    (out : GameState × List Nat),
    advA_loop fuel i st rolls = some out → GameInv st →
    GameInv out.1 ∧ out.1.basePosition = st.basePosition := by
  intro fuel
  induction fuel with
  | zero => intro i st rolls out h hinv; cases h
  | succ f ih =>
    intro i st rolls out h hinv
    obtain ⟨ha, hpb, han, hpn, hl⟩ := hinv
    simp only [advA_loop] at h
    by_cases hlen : i < st.asteroids.length
    · rw [dif_pos hlen] at h
      have hy2neg : ¬(((asteroid_dest st.asteroids (st.asteroids.get ⟨i, hlen⟩)) : Int) = -1) := by
        intro hc
        omega
      rw [if_neg hy2neg] at h
      split at h
      · -- a projectile occupies the destination: handle the collision
        split at h
        · rename_i pj hpj st2 rolls2 hhc
          obtain ⟨v, hv1, hv2, hv3, hv4, hv5, hv6, hv7, hv8⟩ := handle_collision_eq hhc
          have hinv2 : GameInv st2 := by
            refine ⟨?_, ?_, ?_, ?_, ?_⟩
            · intro q hq
              rw [hv1] at hq
              rcases List.mem_append.mp hq with h2 | h2
              · exact ha q (mem_remove_asteroid h2)
              · rw [List.mem_singleton] at h2
                subst h2
                exact ⟨hv3, by omega⟩
            · intro q hq
              rw [hv5] at hq
              exact hpb q (mem_remove_projectile hq)
            · rw [hv1]
              exact nodup_concat (nodup_remove_asteroid han) hv2
            · rw [hv5]
              exact nodup_remove_projectile hpn
            · rw [hv7]
              exact hl
          have hres := ih i st2 rolls2 out h hinv2
          exact ⟨hres.1, hres.2.trans hv8⟩
        · cases h
      · -- no projectile at the destination
        split at h
        · -- the base is struck: lose a life, remove the asteroid
          have hinv2 : GameInv { st with lives := subtract_life st.lives, asteroids := remove_asteroid st.asteroids (some i) } :=
            ⟨fun q hq => ha q (@mem_remove_asteroid q st.asteroids (some i) hq), hpb,
              @nodup_remove_asteroid st.asteroids (some i) han, hpn, subtract_life_le hl⟩
          have hres := ih i _ rolls out h hinv2
          exact ⟨hres.1, hres.2⟩
        · -- ordinary move: update the stored position
          have hmem : st.asteroids.get ⟨i, hlen⟩ ∈ st.asteroids := List.get_mem _ _ _
          have hp16 := ha _ hmem
          have hsetnodup : (st.asteroids.set i
              (mkPos (st.asteroids.get ⟨i, hlen⟩).1
                (asteroid_dest st.asteroids (st.asteroids.get ⟨i, hlen⟩)))).Nodup := by
            by_cases hblk : asteroid_at st.asteroids (st.asteroids.get ⟨i, hlen⟩).1
                (((st.asteroids.get ⟨i, hlen⟩).2 + 255) % 256) ≠ none
            · rw [asteroid_dest_blocked hp16.2 hblk]
              have hpeq : mkPos (st.asteroids.get ⟨i, hlen⟩).1 (st.asteroids.get ⟨i, hlen⟩).2
                  = st.asteroids.get ⟨i, hlen⟩ := by
                simp only [mkPos]
                rw [Nat.mod_eq_of_lt hp16.1, Nat.mod_eq_of_lt hp16.2]
              rw [hpeq, set_get_self]
              exact han
            · rw [asteroid_dest_free hblk]
              exact set_nodup_of_not_mem _ i _ han (find_at_eq_none.mp (not_not.mp hblk))
          have hbound : ∀ q ∈ st.asteroids.set i (mkPos (st.asteroids.get ⟨i, hlen⟩).1 (asteroid_dest st.asteroids (st.asteroids.get ⟨i, hlen⟩))), q.1 < 16 ∧ q.2 < 16 := by
            intro q hq
            rcases List.mem_or_eq_of_mem_set hq with h2 | h2
            · exact ha q h2
            · subst h2
              simp only [mkPos]
              omega
          have hinv2 : GameInv { st with asteroids := st.asteroids.set i (mkPos (st.asteroids.get ⟨i, hlen⟩).1 (asteroid_dest st.asteroids (st.asteroids.get ⟨i, hlen⟩))) } :=
            ⟨hbound, hpb, hsetnodup, hpn, hl⟩
          have hres := ih (i + 1) _ rolls out h hinv2
          exact ⟨hres.1, hres.2⟩
    · rw [dif_neg hlen] at h
      cases h
      exact ⟨⟨ha, hpb, han, hpn, hl⟩, rfl⟩

theorem take_set_succ {α : Type} (l : List α) (i : Nat) (v : α) (h : i < l.length) :
    (l.set i v).take (i + 1) = l.take i ++ [v] := by
  rw [List.set_eq_take_cons_drop v h]
  have h2 : l.take i ++ v :: l.drop (i + 1) = (l.take i ++ [v]) ++ l.drop (i + 1) := by
    simp
  rw [h2]
  refine List.take_left' ?_
  simp only [List.length_append, List.length_take, List.length_singleton]
  omega

theorem drop_set_succ {α : Type} (l : List α) (i : Nat) (v : α) (h : i < l.length) :
    (l.set i v).drop (i + 1) = l.drop (i + 1) := by
  rw [List.set_eq_take_cons_drop v h]
  have h2 : l.take i ++ v :: l.drop (i + 1) = (l.take i ++ [v]) ++ l.drop (i + 1) := by
    simp
  rw [h2]
  refine List.drop_left' ?_
  simp only [List.length_append, List.length_take, List.length_singleton]
  omega

theorem take_eraseIdx_self {α : Type} (l : List α) (i : Nat) (h : i < l.length) :
    (l.eraseIdx i).take i = l.take i := by
  rw [List.eraseIdx_eq_take_drop_succ]
  refine List.take_left' ?_
  simp only [List.length_take]
  omega

theorem drop_eraseIdx_self {α : Type} (l : List α) (i : Nat) (h : i < l.length) :
    (l.eraseIdx i).drop i = l.drop (i + 1) := by
  rw [List.eraseIdx_eq_take_drop_succ]
  refine List.drop_left' ?_
  simp only [List.length_take]
  omega

theorem drop_succ_sublist {α : Type} (l : List α) (i : Nat) :
    List.Sublist (l.drop (i + 1)) (l.drop i) := by
  have h2 := List.drop_drop 1 i l
  rw [← h2, List.drop_one]
  exact List.tail_sublist _

theorem advP_loop_char : ∀ (fuel i : Nat) (st : GameState) (rolls : List Nat)
    (out : GameState × List Nat),
    advP_loop fuel i st rolls = some out →
    ((st.asteroids.Nodup ∧ ∀ q ∈ st.asteroids, q.1 < 16 ∧ q.2 < 16) →
      (out.1.asteroids.Nodup ∧ ∀ q ∈ out.1.asteroids, q.1 < 16 ∧ q.2 < 16)) ∧
    out.1.lives = st.lives ∧ out.1.basePosition = st.basePosition ∧
    ∃ surv : List Pos, surv.Sublist (st.projectiles.drop i) ∧
      (∀ p ∈ surv, (p.2 + 1) % 256 ≠ FIELD_HEIGHT) ∧
      out.1.projectiles = st.projectiles.take i ++
        surv.map (fun p => mkPos p.1 ((p.2 + 1) % 256)) := by
  intro fuel
  induction fuel with
  | zero => intro i st rolls out h; cases h
  | succ f ih =>
    intro i st rolls out h
    simp only [advP_loop] at h
    by_cases hlen : i < st.projectiles.length
    · rw [dif_pos hlen] at h
      have hrp : remove_projectile st.projectiles (some i) = st.projectiles.eraseIdx i := by
        simp [remove_projectile, hlen]
      split at h
      · -- the projectile exits the field at the top: removed, index not incremented
        obtain ⟨hast, hlives, hbase, surv, hsub, hprop, hproj⟩ := ih i _ rolls out h
        refine ⟨hast, hlives, hbase, surv, ?_, hprop, ?_⟩
        · replace hsub : List.Sublist surv ((remove_projectile st.projectiles (some i)).drop i) := hsub
          rw [hrp, drop_eraseIdx_self _ _ hlen] at hsub
          exact hsub.trans (drop_succ_sublist _ _)
        · replace hproj : out.1.projectiles =
              (remove_projectile st.projectiles (some i)).take i ++
                surv.map (fun p => mkPos p.1 ((p.2 + 1) % 256)) := hproj
          rw [hrp, take_eraseIdx_self _ _ hlen] at hproj
          exact hproj
      · split at h
        · -- an asteroid occupies the destination: collision, index not incremented
          rename_i a haat
          split at h
          · rename_i st2 rolls2 hhc
            obtain ⟨v, hv1, hv2, hv3, hv4, hv5, hv6, hv7, hv8⟩ := handle_collision_eq hhc
            obtain ⟨hast, hlives, hbase, surv, hsub, hprop, hproj⟩ := ih i st2 rolls2 out h
            refine ⟨?_, ?_, ?_, surv, ?_, hprop, ?_⟩
            · intro hsrc
              refine hast ⟨?_, ?_⟩
              · rw [hv1]
                exact nodup_concat (nodup_remove_asteroid hsrc.1) hv2
              · rw [hv1]
                intro q hq
                rcases List.mem_append.mp hq with h2 | h2
                · exact hsrc.2 q (mem_remove_asteroid h2)
                · rw [List.mem_singleton] at h2
                  subst h2
                  exact ⟨hv3, by omega⟩
            · rw [hlives, hv7]
            · rw [hbase, hv8]
            · rw [hv5, hrp, drop_eraseIdx_self _ _ hlen] at hsub
              exact hsub.trans (drop_succ_sublist _ _)
            · rw [hv5, hrp, take_eraseIdx_self _ _ hlen] at hproj
              exact hproj
          · cases h
        · -- free cell: the projectile ascends and the index advances
          rename_i hy xopt haat
          obtain ⟨hast, hlives, hbase, surv2, hsub, hprop, hproj⟩ := ih (i + 1) _ rolls out h
          refine ⟨hast, hlives, hbase, st.projectiles.get ⟨i, hlen⟩ :: surv2, ?_, ?_, ?_⟩
          · have hdrop : st.projectiles.drop i =
                st.projectiles.get ⟨i, hlen⟩ :: st.projectiles.drop (i + 1) :=
              List.drop_eq_getElem_cons hlen
            rw [hdrop]
            replace hsub : List.Sublist surv2 ((st.projectiles.set i
                (mkPos (st.projectiles.get ⟨i, hlen⟩).1
                  (((st.projectiles.get ⟨i, hlen⟩).2 + 1) % 256))).drop (i + 1)) := hsub
            rw [drop_set_succ _ _ _ hlen] at hsub
            exact hsub.cons₂ _
          · intro p hp
            rcases List.mem_cons.mp hp with h2 | h2
            · subst h2
              exact hy
            · exact hprop p h2
          · replace hproj : out.1.projectiles = (st.projectiles.set i
                (mkPos (st.projectiles.get ⟨i, hlen⟩).1
                  (((st.projectiles.get ⟨i, hlen⟩).2 + 1) % 256))).take (i + 1) ++
                surv2.map (fun p => mkPos p.1 ((p.2 + 1) % 256)) := hproj
            rw [take_set_succ _ _ _ hlen] at hproj
            rw [hproj, List.map_cons, List.append_assoc, List.singleton_append]
    · rw [dif_neg hlen] at h
      cases h
      refine ⟨id, rfl, rfl, [], by simp, by simp, ?_⟩
      rw [List.take_of_length_le (Nat.le_of_not_lt hlen)]
      simp

theorem mem_remove_footprint {q : Pos} {a : List Pos} {bp2 : Int} :
    q ∈ remove_footprint a bp2 → q ∈ a := by
  simp only [remove_footprint]
  intro hq
  exact mem_remove_asteroid (mem_remove_asteroid (mem_remove_asteroid hq))

theorem nodup_remove_footprint {a : List Pos} {bp2 : Int} (han : a.Nodup) :
    (remove_footprint a bp2).Nodup := by
  simp only [remove_footprint]
  exact nodup_remove_asteroid (nodup_remove_asteroid (nodup_remove_asteroid han))

theorem move_base_aux_inv {st : GameState} {bp2 : Int} (hinv : GameInv st) :
    GameInv (move_base_aux st bp2).1 := by
  obtain ⟨ha, hpb, han, hpn, hl⟩ := hinv
  simp only [move_base_aux]
  split
  · exact ⟨fun q hq => ha q (mem_remove_footprint hq), hpb,
      nodup_remove_footprint han, hpn, subtract_life_le hl⟩
  · exact ⟨ha, hpb, han, hpn, hl⟩

theorem move_base_inv {st : GameState} {d : Int} (hinv : GameInv st) :
    GameInv (move_base st d).1 := by
  unfold move_base
  split
  · exact move_base_aux_inv hinv
  · split
    · exact move_base_aux_inv hinv
    · exact hinv

theorem step_pos_eq {p : Pos} (h1 : p.1 < 16) (h2 : p.2 < 16)
    (h3 : (p.2 + 1) % 256 ≠ 16) :
    mkPos p.1 ((p.2 + 1) % 256) = (p.1, p.2 + 1) := by
  have h5 : (p.2 + 1) % 256 = p.2 + 1 := Nat.mod_eq_of_lt (by omega)
  simp only [mkPos, h5]
  have h4 : p.2 + 1 < 16 := by omega
  rw [Nat.mod_eq_of_lt h1, Nat.mod_eq_of_lt h4]

theorem advance_projectiles_inv {fuel : Nat} {st : GameState} {rolls : List Nat}
    {out : GameState × List Nat} (hinv : GameInv st)
    (h : advance_projectiles fuel st rolls = some out) : GameInv out.1 := by
  obtain ⟨ha, hpb, han, hpn, hl⟩ := hinv
  obtain ⟨hast, hlives, hbase, surv, hsub, hprop, hproj⟩ :=
    advP_loop_char fuel 0 st rolls out h
  have hsurv_mem : ∀ p ∈ surv, p ∈ st.projectiles := by
    intro p hp
    exact hsub.subset hp
  have hout : out.1.projectiles = surv.map (fun p => mkPos p.1 ((p.2 + 1) % 256)) := by
    simpa using hproj
  obtain ⟨han2, ha2⟩ := hast ⟨han, ha⟩
  refine ⟨ha2, ?_, han2, ?_, hlives ▸ hl⟩
  · intro q hq
    rw [hout] at hq
    obtain ⟨p, hp, rfl⟩ := List.mem_map.mp hq
    simp only [mkPos]
    omega
  · rw [hout]
    refine List.Nodup.map_on ?_ (hpn.sublist hsub)
    intro x hx y hy hxy
    have hxb := hpb x (hsurv_mem x hx)
    have hyb := hpb y (hsurv_mem y hy)
    rw [step_pos_eq hxb.1 hxb.2 (hprop x hx), step_pos_eq hyb.1 hyb.2 (hprop y hy)] at hxy
    rw [Prod.ext_iff] at hxy
    exact Prod.ext hxy.1 (by have := hxy.2; omega)

theorem fire_projectile_inv {maxP : Nat} {st : GameState} {rolls : List Nat}
    {st2 : GameState} {b : Bool} (hinv : GameInv st)
    (h : fire_projectile maxP st rolls = some (st2, b)) : GameInv st2 := by
  obtain ⟨ha, hpb, han, hpn, hl⟩ := hinv
  simp only [fire_projectile] at h
  split at h
  · rename_i hcond
    have hfresh : mkPos (u8 st.basePosition) 2 ∉ st.projectiles :=
      find_at_eq_none.mp hcond.2
    have hpn1 : (st.projectiles ++ [mkPos (u8 st.basePosition) 2]).Nodup :=
      nodup_concat hpn hfresh
    have hpb1 : ∀ q ∈ st.projectiles ++ [mkPos (u8 st.basePosition) 2],
        q.1 < 16 ∧ q.2 < 16 := by
      intro q hq
      rcases List.mem_append.mp hq with h2 | h2
      · exact hpb q h2
      · rw [List.mem_singleton] at h2
        subst h2
        simp only [mkPos]
        omega
    split at h
    · rename_i a haat
      cases hhc : handle_collision
          { st with projectiles := st.projectiles ++ [mkPos (u8 st.basePosition) 2] }
          a st.projectiles.length rolls with
      | none => rw [hhc] at h; simp at h
      | some pr =>
        rw [hhc] at h
        simp only [Option.map_some'] at h
        cases h
        obtain ⟨v, hv1, hv2, hv3, hv4, hv5, hv6, hv7, hv8⟩ := handle_collision_eq hhc
        refine ⟨?_, ?_, ?_, ?_, ?_⟩
        · intro q hq
          rw [hv1] at hq
          rcases List.mem_append.mp hq with h2 | h2
          · exact ha q (mem_remove_asteroid h2)
          · rw [List.mem_singleton] at h2
            subst h2
            exact ⟨hv3, by omega⟩
        · intro q hq
          rw [hv5] at hq
          exact hpb1 q (mem_remove_projectile hq)
        · rw [hv1]
          exact nodup_concat (nodup_remove_asteroid han) hv2
        · rw [hv5]
          exact nodup_remove_projectile hpn1
        · rw [hv7]
          exact hl
    · cases h
      exact ⟨ha, hpb1, han, hpn1, hl⟩
  · cases h
    exact ⟨ha, hpb, han, hpn, hl⟩

theorem applyOp_inv {st : GameState} {op : Op} {st2 : GameState}
    (hinv : GameInv st) (h : applyOp st op = some st2) : GameInv st2 := by
  cases op with
  | move d =>
    cases h
    exact move_base_inv hinv
  | fire maxP rolls =>
    simp only [applyOp] at h
    cases hf : fire_projectile maxP st rolls with
    | none => rw [hf] at h; cases h
    | some pr =>
      rw [hf] at h
      simp only [Option.map_some'] at h
      cases h
      obtain ⟨s3, b⟩ := pr
      exact fire_projectile_inv hinv hf
  | advP fuel rolls =>
    simp only [applyOp] at h
    cases hf : advance_projectiles fuel st rolls with
    | none => rw [hf] at h; cases h
    | some pr =>
      rw [hf] at h
      simp only [Option.map_some'] at h
      cases h
      exact advance_projectiles_inv hinv hf
  | advA fuel rolls =>
    simp only [applyOp] at h
    cases hf : advance_asteroids fuel st rolls with
    | none => rw [hf] at h; cases h
    | some pr =>
      rw [hf] at h
      simp only [Option.map_some'] at h
      cases h
      exact (advA_loop_inv fuel 0 st rolls pr hf hinv).1

theorem runOps_inv : ∀ (ops : List Op) (st st2 : GameState),
    runOps st ops = some st2 → GameInv st → GameInv st2 := by
  intro ops
  induction ops with
  | nil =>
    intro st st2 h hinv
    cases h
    exact hinv
  | cons op rest ih =>
    intro st st2 h hinv
    simp only [runOps] at h
    cases happ : applyOp st op with
    | none => rw [happ] at h; cases h
    | some st1 =>
      rw [happ] at h
      exact ih st1 st2 h (applyOp_inv hinv happ)

theorem reachable_inv {st : GameState} (h : Reachable st) : GameInv st := by
  obtain ⟨maxA, rolls, ops, h2⟩ := h
  cases hng : new_game initSt maxA rolls with
  | none => rw [hng] at h2; cases h2
  | some s1 =>
    rw [hng] at h2
    exact runOps_inv ops s1 st h2 (new_game_inv hng).1

theorem move_base_aux_parts (st : GameState) (bp2 : Int) :
    (move_base_aux st bp2).1.basePosition = bp2 ∧ (move_base_aux st bp2).2 = true := by
  simp only [move_base_aux]
  split
  · exact ⟨rfl, rfl⟩
  · exact ⟨rfl, rfl⟩

/-- C1: the claim says an asteroid whose computed destination is below row 0
is destroyed within the same `advance_asteroids` call and replaced by a fresh
top-row spawn.  The code cannot do this: `y` is a `uint8_t`, so `y == -1` is
always false, and an unblocked asteroid at row 0 is instead relocated in
place to row 15 (the `& 0x0F` truncation of 255).  Concretely, the single
asteroid at `(4, 0)` survives the call and reappears at `(4, 15)` with the
asteroid count unchanged and no random rolls consumed. -/
theorem advance_asteroids_row_zero_wraps :
    advance_asteroids 2 c1_state [] =
      some ({ c1_state with asteroids := [(4, 15)] }, []) ∧
    c1_state.asteroids = [(4, 0)] := by
  exact ⟨by decide, rfl⟩

/-- C2 counterexample: the scheduler gate has no `max(floor, …)`.  At
`score = 201` the `uint32` expression `last + 1000 - score * 5` underflows:
with `last_move_asteroid = 0` the computed threshold is `2^32 - 5`, the gate
refuses `current_time = 2000` even though the spec formula (with any positive
floor, e.g. 5 ms) fires. -/
theorem asteroid_interval_underflow_cex :
    asteroid_move_threshold 0 201 = 4294967291 ∧
    asteroid_move_due 2000 0 201 = false ∧
    asteroid_due_spec 5 2000 0 201 = true := by
  exact ⟨by decide, by decide, by decide⟩

/-- C2 (amended): `play_game` computes the asteroid-tick threshold as
`last_move_asteroid + 1000 − score × 5` in wrapping `uint32_t` arithmetic
with no lower floor: while `5·score ≤ last + 1000` the threshold is the exact
difference (reaching an interval of 0 at score 200), and beyond that the
subtraction wraps around `2^32`. -/
theorem asteroid_threshold_formula (last score : Nat)
    (h1 : last + 1000 < U32) (h2 : score * 5 < U32) :
    (score * 5 ≤ last + 1000 →
      asteroid_move_threshold last score = last + 1000 - score * 5) ∧
    (last + 1000 < score * 5 →
      asteroid_move_threshold last score = last + 1000 + U32 - score * 5) := by
  have hM : U32 = 4294967296 := rfl
  simp only [asteroid_move_threshold, hM] at h1 h2 ⊢
  constructor
  · intro h3
    omega
  · intro h3
    omega

theorem asteroid_threshold_formula_witness :
    asteroid_move_threshold 0 100 = 0 + 1000 - 100 * 5 ∧
    asteroid_move_threshold 0 201 = 0 + 1000 + U32 - 201 * 5 :=
  ⟨(asteroid_threshold_formula 0 100 (by decide) (by decide)).1 (by decide),
   (asteroid_threshold_formula 0 201 (by decide) (by decide)).2 (by decide)⟩

/-- C3: for valid indices, `handle_collision` keeps the asteroid count
unchanged (the removed asteroid is replaced by a fresh one in the top two
rows, at a cell not already holding an asteroid), decreases the projectile
count by exactly one, and increases the score by exactly one. -/
theorem handle_collision_spec (st : GameState) (a p : Nat) (rolls : List Nat)
    (st2 : GameState) (rolls2 : List Nat)
    (ha : a < st.asteroids.length) (hp : p < st.projectiles.length)
    (h : handle_collision st a p rolls = some (st2, rolls2)) :
    st2.asteroids.length = st.asteroids.length ∧
    st2.projectiles.length = st.projectiles.length - 1 ∧
    st2.score = st.score + 1 ∧
    ∃ v, st2.asteroids = remove_asteroid st.asteroids (some a) ++ [v] ∧
      v ∉ remove_asteroid st.asteroids (some a) ∧ 14 ≤ v.2 ∧ v.2 ≤ 15 := by
  obtain ⟨v, hv1, hv2, hv3, hv4, hv5, hv6, hv7, hv8⟩ := handle_collision_eq h
  refine ⟨?_, ?_, hv6, v, hv1, hv2, ?_, ?_⟩
  · rw [hv1, List.length_append, length_remove_asteroid ha]
    simp only [List.length_singleton]
    omega
  · rw [hv5]
    exact length_remove_projectile hp
  · rcases hv4 with h14 | h15 <;> omega
  · rcases hv4 with h14 | h15 <;> omega

theorem handle_collision_spec_witness :
    (⟨3, [], [(0, 15)], 4, 1⟩ : GameState).asteroids.length
      = (⟨3, [(3, 2)], [(3, 2)], 4, 0⟩ : GameState).asteroids.length ∧
    (⟨3, [], [(0, 15)], 4, 1⟩ : GameState).projectiles.length
      = (⟨3, [(3, 2)], [(3, 2)], 4, 0⟩ : GameState).projectiles.length - 1 ∧
    (⟨3, [], [(0, 15)], 4, 1⟩ : GameState).score
      = (⟨3, [(3, 2)], [(3, 2)], 4, 0⟩ : GameState).score + 1 ∧
    ∃ v, (⟨3, [], [(0, 15)], 4, 1⟩ : GameState).asteroids
        = remove_asteroid (⟨3, [(3, 2)], [(3, 2)], 4, 0⟩ : GameState).asteroids (some 0) ++ [v] ∧
      v ∉ remove_asteroid (⟨3, [(3, 2)], [(3, 2)], 4, 0⟩ : GameState).asteroids (some 0) ∧
      14 ≤ v.2 ∧ v.2 ≤ 15 :=
  handle_collision_spec ⟨3, [(3, 2)], [(3, 2)], 4, 0⟩ 0 0 [0, 0]
    ⟨3, [], [(0, 15)], 4, 1⟩ [] (by decide) (by decide) (by decide)

/-- C4: `fire_projectile` succeeds exactly when below capacity with the cell
above the base projectile-free; on a fresh game with an asteroid already at
`(basePosition, 2)` a single call creates and immediately destroys the
projectile (score becomes 1, asteroid count unchanged, returns "created");
firing at capacity returns "rejected" with the state unchanged. -/
theorem fire_projectile_spec (maxP : Nat) (st : GameState) (rolls : List Nat) :
    (∀ st2 b, fire_projectile maxP st rolls = some (st2, b) →
      (b = true ↔ st.projectiles.length < maxP ∧
        projectile_at st.projectiles (u8 st.basePosition) 2 = none)) ∧
    (st.projectiles.length = maxP → fire_projectile maxP st rolls = some (st, false)) ∧
    (∀ a st2 b, st.projectiles = [] → st.score = 0 → 0 < maxP →
      asteroid_at st.asteroids (u8 st.basePosition) 2 = some a →
      fire_projectile maxP st rolls = some (st2, b) →
      b = true ∧ st2.projectiles = [] ∧ st2.score = 1 ∧
        st2.asteroids.length = st.asteroids.length) := by
  refine ⟨?_, ?_, ?_⟩
  · intro st2 b h
    simp only [fire_projectile] at h
    split at h
    · rename_i hcond
      constructor
      · intro _
        exact hcond
      · intro _
        split at h
        · rw [Option.map_eq_some'] at h
          obtain ⟨r, hr, hf⟩ := h
          exact ((Prod.ext_iff.mp hf).2).symm
        · cases h
          rfl
    · rename_i hncond
      cases h
      simp only [Bool.false_eq_true, false_iff]
      exact hncond
  · intro hfull
    simp only [fire_projectile]
    rw [if_neg]
    intro hcond
    omega
  · intro a st2 b hP hS hmaxP haat h
    simp only [fire_projectile] at h
    have hcond : st.projectiles.length < maxP ∧
        projectile_at st.projectiles (u8 st.basePosition) 2 = none := by
      rw [hP]
      exact ⟨hmaxP, rfl⟩
    rw [if_pos hcond] at h
    rw [show ({ st with projectiles := st.projectiles ++ [mkPos (u8 st.basePosition) 2] } :
        GameState).asteroids = st.asteroids from rfl] at h
    rw [haat] at h
    rw [Option.map_eq_some'] at h
    obtain ⟨r, hr, hf⟩ := h
    obtain ⟨r1, r2⟩ := r
    obtain ⟨v, hv1, hv2, hv3, hv4, hv5, hv6, hv7, hv8⟩ := handle_collision_eq hr
    have hst2 : st2 = r1 := ((Prod.ext_iff.mp hf).1).symm
    have hb : b = true := ((Prod.ext_iff.mp hf).2).symm
    subst hst2
    refine ⟨hb, ?_, ?_, ?_⟩
    · rw [hv5]
      simp [hP, remove_projectile]
    · rw [hv6, hS]
    · rw [hv1, List.length_append, length_remove_asteroid (find_at_lt haat)]
      have := find_at_lt haat
      simp only [List.length_singleton]
      omega

theorem fire_projectile_spec_witness :
    (true = true ↔ (⟨3, [], [(3, 2)], 4, 0⟩ : GameState).projectiles.length < 2 ∧
      projectile_at (⟨3, [], [(3, 2)], 4, 0⟩ : GameState).projectiles
        (u8 (⟨3, [], [(3, 2)], 4, 0⟩ : GameState).basePosition) 2 = none) ∧
    fire_projectile 0 ⟨3, [], [(3, 2)], 4, 0⟩ [0, 1] =
      some (⟨3, [], [(3, 2)], 4, 0⟩, false) ∧
    (true = true ∧ (⟨3, [], [(0, 14)], 4, 1⟩ : GameState).projectiles = [] ∧
      (⟨3, [], [(0, 14)], 4, 1⟩ : GameState).score = 1 ∧
      (⟨3, [], [(0, 14)], 4, 1⟩ : GameState).asteroids.length
        = (⟨3, [], [(3, 2)], 4, 0⟩ : GameState).asteroids.length) :=
  ⟨(fire_projectile_spec 2 ⟨3, [], [(3, 2)], 4, 0⟩ [0, 1]).1
      ⟨3, [], [(0, 14)], 4, 1⟩ true (by decide),
   (fire_projectile_spec 0 ⟨3, [], [(3, 2)], 4, 0⟩ [0, 1]).2.1 (by decide),
   (fire_projectile_spec 2 ⟨3, [], [(3, 2)], 4, 0⟩ [0, 1]).2.2 0
      ⟨3, [], [(0, 14)], 4, 1⟩ true rfl rfl (by decide) (by decide) (by decide)⟩

/-- C5: `move_base(MOVE_LEFT)` at `basePosition = 0` (and `MOVE_RIGHT` at 7,
the last column) rejects the move and leaves the state unchanged, and in
every case the returned boolean is true exactly when `basePosition` actually
changed, regardless of any collision handled during the move. -/
theorem move_base_spec (st : GameState) :
    (st.basePosition = 0 → move_base st MOVE_LEFT = (st, false)) ∧
    (st.basePosition = 7 → move_base st MOVE_RIGHT = (st, false)) ∧
    (∀ d, (move_base st d).2 = true ↔
      (move_base st d).1.basePosition ≠ st.basePosition) := by
  refine ⟨?_, ?_, ?_⟩
  · intro h0
    simp [move_base, MOVE_LEFT, MOVE_RIGHT, h0]
  · intro h7
    simp [move_base, MOVE_LEFT, MOVE_RIGHT, h7]
  · intro d
    by_cases hL : d = MOVE_LEFT ∧ st.basePosition ≠ 0
    · simp only [move_base, if_pos hL]
      obtain ⟨hb, hr⟩ := move_base_aux_parts st (i8 (st.basePosition - 1))
      rw [hb, hr]
      have hne : i8 (st.basePosition - 1) ≠ st.basePosition := by
        unfold i8
        omega
      simp [hne]
    · by_cases hR : d = MOVE_RIGHT ∧ st.basePosition ≠ 7
      · simp only [move_base, if_neg hL, if_pos hR]
        obtain ⟨hb, hr⟩ := move_base_aux_parts st (i8 (st.basePosition + 1))
        rw [hb, hr]
        have hne : i8 (st.basePosition + 1) ≠ st.basePosition := by
          unfold i8
          omega
        simp [hne]
      · simp only [move_base, if_neg hL, if_neg hR]
        simp

theorem move_base_spec_witness :
    move_base ⟨0, [], [], 4, 0⟩ MOVE_LEFT = (⟨0, [], [], 4, 0⟩, false) ∧
    move_base ⟨7, [], [], 4, 0⟩ MOVE_RIGHT = (⟨7, [], [], 4, 0⟩, false) ∧
    ((move_base ⟨3, [], [], 4, 0⟩ MOVE_LEFT).2 = true ↔
      (move_base ⟨3, [], [], 4, 0⟩ MOVE_LEFT).1.basePosition
        ≠ (⟨3, [], [], 4, 0⟩ : GameState).basePosition) :=
  ⟨(move_base_spec ⟨0, [], [], 4, 0⟩).1 rfl,
   (move_base_spec ⟨7, [], [], 4, 0⟩).2.1 rfl,
   (move_base_spec ⟨3, [], [], 4, 0⟩).2.2 MOVE_LEFT⟩

/-- C6: at every reachable state (after `new_game` and any sequence of
`move_base`, `fire_projectile`, `advance_projectiles`, `advance_asteroids`
calls) no two live asteroids occupy the same position. -/
theorem asteroids_distinct_of_reachable (st : GameState) (h : Reachable st) :
    st.asteroids.Nodup :=
  (reachable_inv h).2.2.1

theorem asteroids_distinct_witness :
    (⟨3, [], [(0, 3), (1, 3)], 4, 0⟩ : GameState).asteroids.Nodup :=
  asteroids_distinct_of_reachable ⟨3, [], [(0, 3), (1, 3)], 4, 0⟩
    ⟨2, [0, 0, 1, 0], [], by decide⟩

/-- C7: from any reachable state, an `advance_projectiles` call never
produces two projectiles in the same cell, and no projectile that was on the
top row (where the move would reach `y = FIELD_HEIGHT`) survives the call:
every surviving projectile is some pre-call projectile from a row at most 14
moved up exactly one row (removals shift later projectiles into the current
slot without advancing the index, so no survivor is skipped). -/
theorem advance_projectiles_spec (st : GameState) (h : Reachable st)
    (fuel : Nat) (rolls : List Nat) (out : GameState × List Nat)
    (h2 : advance_projectiles fuel st rolls = some out) :
    out.1.projectiles.Nodup ∧
    ∀ q ∈ out.1.projectiles, ∃ p ∈ st.projectiles, p.2 ≤ 14 ∧ q = (p.1, p.2 + 1) := by
  have hinv := reachable_inv h
  have hinv2 := advance_projectiles_inv hinv h2
  refine ⟨hinv2.2.2.2.1, ?_⟩
  obtain ⟨hast, hlives, hbase, surv, hsub, hprop, hproj⟩ :=
    advP_loop_char fuel 0 st rolls out h2
  intro q hq
  have hout : out.1.projectiles = surv.map (fun p => mkPos p.1 ((p.2 + 1) % 256)) := by
    simpa using hproj
  rw [hout] at hq
  obtain ⟨p, hp, rfl⟩ := List.mem_map.mp hq
  have hmem : p ∈ st.projectiles := hsub.subset hp
  have hb := hinv.2.1 p hmem
  have hy : p.2 ≤ 14 := by
    have h3 := hprop p hp
    simp only [FIELD_HEIGHT] at h3
    omega
  exact ⟨p, hmem, hy, step_pos_eq hb.1 hb.2 (hprop p hp)⟩

theorem advance_projectiles_spec_witness :
    (⟨3, [(3, 3)], [(0, 3), (1, 3)], 4, 0⟩ : GameState).projectiles.Nodup ∧
    ∀ q ∈ (⟨3, [(3, 3)], [(0, 3), (1, 3)], 4, 0⟩ : GameState).projectiles,
      ∃ p ∈ (⟨3, [(3, 2)], [(0, 3), (1, 3)], 4, 0⟩ : GameState).projectiles,
        p.2 ≤ 14 ∧ q = (p.1, p.2 + 1) :=
  advance_projectiles_spec ⟨3, [(3, 2)], [(0, 3), (1, 3)], 4, 0⟩
    ⟨2, [0, 0, 1, 0], [.fire 2 []], by decide⟩ 2 []
    (⟨3, [(3, 3)], [(0, 3), (1, 3)], 4, 0⟩, []) (by decide)

/-- C8: the serial bytes `ESC`, `[`, `D` delivered across three successive
scheduler iterations with no button pressed produce no command on the first
two bytes (they only advance the escape-sequence state machine) and decode
the third byte into a single left-move command, so exactly one
`move_base(MOVE_LEFT)` is dispatched. -/
theorem escape_sequence_left_decode :
    decode_run 0 [27, 91, 68] = [Command.idle, Command.idle, Command.left] ∧
    dispatched_moves (decode_run 0 [27, 91, 68]) = [MOVE_LEFT] := by
  exact ⟨by decide, by decide⟩

/-- C9 counterexample: in the `part_004` revision, a refresh at
`now = previous_time + 3` with `display_value = 5` and digit select 0 records
the new time (the gate passed) but leaves the digit select at 0 — the driven
digit is pinned, not flipped, whenever the value is below 10. -/
theorem display_low_score_no_flip_cex :
    (display_data_004 ⟨0, 0, 5, 0, 0⟩ 3).previous_time = 3 ∧
    (display_data_004 ⟨0, 0, 5, 0, 0⟩ 3).seven_seg_cc = 0 ∧
    (⟨0, 0, 5, 0, 0⟩ : DisplayState).seven_seg_cc = 0 := by
  exact ⟨by decide, by decide, rfl⟩

/-- C9 (amended): absent `uint32` wraparound, a call below the 3 ms gate is a
no-op in both revisions (and in `part_003`, whose gate is the strict `>`, a
call at exactly `previous_time + 3` is also a no-op); when the `part_004`
gate `now ≥ previous_time + 3` passes, the refresh records
`previous_time = now`, flips the driven digit when the value is at least 10
and pins the select to digit 0 otherwise, and writes that select bit to the
digit-select output. -/
theorem display_data_spec (s : DisplayState) (now : Nat)
    (h0 : now < U32) (h1 : s.previous_time + 3 < U32) :
    (now < s.previous_time + 3 →
      display_data_004 s now = s ∧ display_data_003 s now = s) ∧
    (now = s.previous_time + 3 → display_data_003 s now = s) ∧
    (s.previous_time + 3 ≤ now →
      (display_data_004 s now).previous_time = now ∧
      (display_data_004 s now).seven_seg_cc =
        (if s.display_value < 10 then 0 else 1 - s.seven_seg_cc) ∧
      (display_data_004 s now).ccPort % 2 =
        (if s.display_value < 10 then 0 else 1 - s.seven_seg_cc)) := by
  have hMnow : now % U32 = now := Nat.mod_eq_of_lt h0
  have hMprev : (s.previous_time + 3) % U32 = s.previous_time + 3 :=
    Nat.mod_eq_of_lt h1
  refine ⟨?_, ?_, ?_⟩
  · intro hlt
    constructor
    · simp only [display_data_004]
      rw [if_neg]
      rw [hMnow, hMprev]
      omega
    · simp only [display_data_003]
      rw [if_neg]
      rw [hMnow, hMprev]
      omega
  · intro heq
    simp only [display_data_003]
    rw [if_neg]
    rw [hMnow, hMprev]
    omega
  · intro hge
    have hg : now % U32 ≥ (s.previous_time + 3) % U32 := by
      rw [hMnow, hMprev]
      exact hge
    simp only [display_data_004, if_pos hg]
    refine ⟨hMnow, by trivial, ?_⟩
    split
    · omega
    · omega

theorem display_data_spec_witness :
    (display_data_004 ⟨0, 0, 5, 0, 0⟩ 2 = ⟨0, 0, 5, 0, 0⟩ ∧
      display_data_003 ⟨0, 0, 5, 0, 0⟩ 2 = ⟨0, 0, 5, 0, 0⟩) ∧
    ((display_data_004 ⟨0, 1, 47, 0, 0⟩ 10).previous_time = 10 ∧
      (display_data_004 ⟨0, 1, 47, 0, 0⟩ 10).seven_seg_cc = 0 ∧
      (display_data_004 ⟨0, 1, 47, 0, 0⟩ 10).ccPort % 2 = 0) :=
  ⟨(display_data_spec ⟨0, 0, 5, 0, 0⟩ 2 (by decide) (by decide)).1 (by decide),
   (display_data_spec ⟨0, 1, 47, 0, 0⟩ 10 (by decide) (by decide)).2.2 (by decide)⟩

/-- C10: the lives counter never underflows (`subtract_life` at 0 leaves 0
rather than wrapping the unsigned counter), and at every reachable state the
counter stays within its `init_lives` range, at most 4. -/
theorem lives_bounded_of_reachable (st : GameState) (h : Reachable st) :
    st.lives ≤ 4 ∧ subtract_life 0 = 0 :=
  ⟨(reachable_inv h).2.2.2.2, subtract_life_zero⟩

theorem lives_bounded_witness :
    (⟨3, [(3, 2)], [(0, 3), (1, 3)], 4, 0⟩ : GameState).lives ≤ 4 ∧
    subtract_life 0 = 0 :=
  lives_bounded_of_reachable ⟨3, [(3, 2)], [(0, 3), (1, 3)], 4, 0⟩
    ⟨2, [0, 0, 1, 0], [.fire 2 []], by decide⟩
